import Mathlib

/-!
Verification of the itinerary-planner core against its specification.

The Python sources are embedded shallowly:
* `src/app.py` — currency table, `convert_currency`, `generate_budget_section`
  (budget locator + dollar-amount regex + substring replacement),
  `remove_asterisks`;
* `src/itinerary_planner.py` — `extract_duration`, `extract_destinations`,
  and the response-cleanup part of `get_attractions`.

Strings are modelled as Lean `String`/`List Char`.  Python float arithmetic
on the currency amounts is modelled by exact decimal numbers (`Dec`, a
numerator over a power of ten): every amount and every rate in the source has
at most two fractional digits, the products are exact decimals, and for the
inputs exercised here IEEE-double evaluation rounds to the same rendered
strings.  `re` scanning is modelled by explicit left-to-right scanners that
mirror the exact patterns appearing in the source, including greediness and
the one backtracking case that matters (`\s+` followed by a character class
that also contains whitespace).  Scanners that advance through their input by
a variable number of characters take a fuel argument instantiated with the
input length, which bounds the number of steps because every step consumes at
least one character; this keeps all definitions structurally recursive and
fully evaluable.
-/

/-! ## Basic character/string utilities mirroring Python primitives -/

/-- Python `\s` (ASCII range) and `str.strip`/`str.split` whitespace:
space, tab, newline, carriage return, vertical tab, form feed. -/
def isPySpace (c : Char) : Bool :=
  c == ' ' || c == '\t' || c == '\n' || c == '\r' || c == Char.ofNat 11 || c == Char.ofNat 12

/-- Python `pat in s` (substring containment, `str.__contains__`).
The empty pattern is contained in every string, as in Python. -/
def containsSub (pat : List Char) : List Char → Bool
  | [] => pat.isEmpty
  | c :: cs => pat.isPrefixOf (c :: cs) || containsSub pat cs

/-- Python `pat in s` at `String` level. -/
def pyIn (pat s : String) : Bool := containsSub pat.data s.data

/-- Python `str.lower()` (ASCII input at every call site). -/
def strLower (s : String) : String := String.mk (s.data.map Char.toLower)

/-- Python `s.startswith(pre)`. -/
def pyStartsWith (s pre : String) : Bool := pre.data.isPrefixOf s.data

/-- Python `s.split('\n')`: the list of lines separated by newline
characters; the empty string yields `[""]`, as in Python. -/
def lineSplit : List Char → List String
  | [] => [""]
  | c :: cs =>
    match lineSplit cs with
    | [] => []
    | s :: rest =>
      if c = '\n' then "" :: s :: rest else String.mk (c :: s.data) :: rest

/-- Python `str.replace(old, new)` on character lists: leftmost,
non-overlapping, the replacement text is not rescanned.  The fuel is
instantiated with the input length (every step consumes at least one
character of the input when `old` is non-empty; Python's special behaviour
for an empty `old` is not modelled — every call site passes a non-empty
`old`, and with an empty `old` this model leaves the string unchanged). -/
def pyReplaceAux (old new : List Char) : ℕ → List Char → List Char
  | 0, l => l
  | _ + 1, [] => []
  | fuel + 1, c :: cs =>
    if old ≠ [] ∧ old.isPrefixOf (c :: cs) then
      new ++ pyReplaceAux old new fuel (List.drop old.length (c :: cs))
    else
      c :: pyReplaceAux old new fuel cs

/-- Python `s.replace(old, new)` at `String` level. -/
def pyReplace (s old new : String) : String :=
  String.mk (pyReplaceAux old.data new.data s.data.length s.data)

/-- Python `str.strip()` (no argument): drop leading and trailing whitespace. -/
def pyStripL (l : List Char) : List Char :=
  ((l.dropWhile isPySpace).reverse.dropWhile isPySpace).reverse

/-- Python `int` applied to a string of decimal digits. -/
def digitsToNat (ds : List Char) : ℕ :=
  ds.foldl (fun n c => 10 * n + (c.toNat - 48)) 0

/-! ## Exact decimal numbers standing in for the Python floats -/

/-- Exact non-negative decimal number `num / 10 ^ exp`.  All monetary values
in the source (parsed dollar literals, exchange rates, their products) are
such decimals; negative values never arise. -/
structure Dec where
  num : ℕ
  exp : ℕ
deriving DecidableEq

/-- Product of two exact decimals (the `amount_usd * exchange_rates[...]`
multiplication of `convert_currency`). -/
def decMul (a b : Dec) : Dec := ⟨a.num * b.num, a.exp + b.exp⟩

/-- Python `float` on the unsigned decimal strings that reach it in
`generate_budget_section` (digits with an optional fractional part, commas
already removed); anything else yields `none` (Python: `ValueError`).
Signs, exponents and infinities never occur at the call site and are not
modelled. -/
def pyFloat (s : String) : Option Dec :=
  let ip := s.data.takeWhile (fun c => c != '.')
  let rest := s.data.dropWhile (fun c => c != '.')
  match rest with
  | [] => if ip ≠ [] ∧ ip.all Char.isDigit then some ⟨digitsToNat ip, 0⟩ else none
  | _ :: fp =>
    if ip.all Char.isDigit ∧ fp.all Char.isDigit ∧ (ip ≠ [] ∨ fp ≠ []) then
      some ⟨digitsToNat ip * 10 ^ fp.length + digitsToNat fp, fp.length⟩
    else none

/-! ## Python `format(x, ",.Nf")` over exact decimals -/

/-- Rounded quotient `n / d`, ties to even (the IEEE/Python rounding used by
`format(x, ",.2f")`); `d` is a positive power of ten at every call site. -/
def roundHalfEvenDiv (n d : ℕ) : ℕ :=
  let q := n / d
  let r := n % d
  if 2 * r < d then q
  else if d < 2 * r then q + 1
  else if q % 2 = 0 then q else q + 1

/-- Insert a comma after every group of three characters; the input is the
digit string of the integer part, least-significant digit first, and the fuel
is instantiated with its length. -/
def group3Aux : ℕ → List Char → List Char
  | 0, l => l
  | fuel + 1, l =>
    if l.length ≤ 3 then l
    else l.take 3 ++ [','] ++ group3Aux fuel (l.drop 3)

/-- Thousands grouping of a most-significant-first digit string. -/
def group3 (l : List Char) : List Char :=
  (group3Aux l.length l.reverse).reverse

/-- Left-pad a string with zeros to width `k`. -/
def padZeros (k : ℕ) (s : String) : String :=
  String.mk (List.replicate (k - s.length) '0') ++ s

/-- Python `f"{x:,.prec f}"` for the non-negative decimals of this program:
fixed-point rendering with `prec` fractional digits (round half to even) and
thousands separators in the integer part. -/
def formatSep (d : Dec) (prec : ℕ) : String :=
  let scaled := roundHalfEvenDiv (d.num * 10 ^ prec) (10 ^ d.exp)
  let ipart := scaled / 10 ^ prec
  let fpart := scaled % 10 ^ prec
  let istr := String.mk (group3 (Nat.repr ipart).data)
  let fstr := if prec = 0 then "" else "." ++ padZeros prec (Nat.repr fpart)
  istr ++ fstr

/-! ## src/app.py — currency table and `convert_currency` -/

/-- Exchange-rate table of `app.py` (`exchange_rates`), USD-relative:
1.0, 0.91, 0.78, 151.23, 83.42, 1.49, 1.35 as exact decimals. -/
def exchange_rates : List (String × Dec) :=
  [("USD", ⟨1, 0⟩), ("EUR", ⟨91, 2⟩), ("GBP", ⟨78, 2⟩), ("JPY", ⟨15123, 2⟩),
   ("INR", ⟨8342, 2⟩), ("AUD", ⟨149, 2⟩), ("CAD", ⟨135, 2⟩)]

/-- Currency-symbol table of `app.py` (`currency_symbols`). -/
def currency_symbols : List (String × String) :=
  [("USD", "$"), ("EUR", "€"), ("GBP", "£"), ("JPY", "¥"), ("INR", "₹"),
   ("AUD", "A$"), ("CAD", "C$")]

/-- Association-list lookup used for the two dictionaries above. -/
def lookupStr {α : Type} : List (String × α) → String → Option α
  | [], _ => none
  | (k, v) :: rest, key => if k = key then some v else lookupStr rest key

/-- Dictionary lookup `exchange_rates[c]`.  Every call site passes one of the
seven table keys, so the `KeyError` path is unreachable and not modelled. -/
def rateOf (c : String) : Dec := (lookupStr exchange_rates c).getD ⟨0, 0⟩

/-- Dictionary lookup `currency_symbols[c]` (same remark as `rateOf`). -/
def symbolOf (c : String) : String := (lookupStr currency_symbols c).getD ""

/-- Model of `convert_currency(amount_usd, target_currency)` from `app.py`:
USD is returned as-is with two decimals; otherwise multiply by the rate and
format with 0 fractional digits for JPY/INR, 2 otherwise. -/
def convert_currency (amount_usd : Dec) (target_currency : String) : String :=
  if target_currency = "USD" then
    symbolOf target_currency ++ formatSep amount_usd 2
  else
    let converted := decMul amount_usd (rateOf target_currency)
    if target_currency = "JPY" ∨ target_currency = "INR" then
      symbolOf target_currency ++ formatSep converted 0
    else
      symbolOf target_currency ++ formatSep converted 2

/-! ## src/app.py — budget locator (lines 64–76 of `generate_budget_section`) -/

/-- Condition of line 69 of `app.py`: `"budget" in line.lower() and "#" in line`. -/
def budget_heading_line (line : String) : Bool :=
  pyIn "budget" (strLower line) && pyIn "#" line

/-- Inner `while` loop (lines 72–75): collect lines, each with a trailing
newline, until one starts with `#` (exclusive) or the input ends. -/
def budget_section_lines : List String → String
  | [] => ""
  | l :: rest =>
    if pyStartsWith l "#" then "" else l ++ "\n" ++ budget_section_lines rest

/-- Outer `for` loop (lines 68–76): find the first budget heading line; the
span is that line plus the following non-heading lines.  Returns the
`(budget_found, budget_section)` pair of the source. -/
def locate_budget : List String → Bool × String
  | [] => (false, "")
  | line :: rest =>
    if budget_heading_line line then (true, line ++ "\n" ++ budget_section_lines rest)
    else locate_budget rest

/-- Model of `remove_asterisks(text)` from `app.py`: `text.replace("**", "")`. -/
def remove_asterisks (text : String) : String :=
  pyReplace text "**" ""

/-! ## src/app.py — dollar-amount regex `\$(\d+(?:,\d+)?(?:\.\d+)?)` -/

/-- Maximal digit prefix and the remainder (`\d+` greedy). -/
def takeDigits (l : List Char) : List Char × List Char :=
  (l.takeWhile Char.isDigit, l.dropWhile Char.isDigit)

/-- One optional greedy group `(?:<sep>\d+)?` of the dollar-amount pattern:
if the input starts with the separator followed by at least one digit, the
group consumes the separator and the maximal digit run; otherwise it matches
the empty string and consumes nothing. -/
def optGroup (sep : Char) (cs : List Char) : List Char × List Char :=
  match cs with
  | [] => ([], [])
  | x :: rest =>
    if x = sep then
      let p := takeDigits rest
      if p.1 = [] then ([], x :: rest) else (sep :: p.1, p.2)
    else ([], x :: rest)

/-- One attempted match of `(\d+(?:,\d+)?(?:\.\d+)?)` at the position just
after a `$`; on success returns the captured literal and the rest of the
input after the match.  The two optional groups are greedy and, because each
starts with a character that cannot extend the preceding `\d+`, no
backtracking can occur. -/
def matchAmount (cs : List Char) : Option (List Char × List Char) :=
  let p1 := takeDigits cs
  if p1.1 = [] then none
  else
    let q := optGroup ',' p1.2
    let r := optGroup '.' q.2
    some (p1.1 ++ q.1 ++ r.1, r.2)

/-- Left-to-right scan of `re.findall(r'\$(\d+(?:,\d+)?(?:\.\d+)?)', s)`:
leftmost non-overlapping matches; on failure the scan advances one
character. -/
def findDollarAux : ℕ → List Char → List (List Char)
  | 0, _ => []
  | _ + 1, [] => []
  | fuel + 1, c :: cs =>
    if c = '$' then
      match matchAmount cs with
      | some (cap, rest) => cap :: findDollarAux fuel rest
      | none => findDollarAux fuel cs
    else findDollarAux fuel cs

/-- The `dollar_amounts` list of line 86 of `app.py` (captured literals, in
match order, duplicates included — exactly what `re.findall` returns). -/
def findDollarAmounts (s : String) : List String :=
  (findDollarAux s.data.length s.data).map String.mk

/-! ## src/app.py — `generate_budget_section` -/

/-- Lines 83–99 of `generate_budget_section`: for each captured literal (in
`re.findall` order), strip commas, parse, convert, and replace every
occurrence of `"$" + literal` in the running text by
`"$" + literal + " (" + converted + ")"`.  Parse failures are skipped. -/
def enhance_budget (budget_section : String) (preferred_currency : String) : String :=
  (findDollarAmounts budget_section).foldl
    (fun enhanced amount_str =>
      match pyFloat (pyReplace amount_str "," "") with
      | some amount_usd =>
        pyReplace enhanced ("$" ++ amount_str)
          ("$" ++ amount_str ++ " (" ++ convert_currency amount_usd preferred_currency ++ ")")
      | none => enhanced)
    budget_section

/-- Model of `generate_budget_section(itinerary, preferred_currency)` from
`app.py`: split into lines, locate the budget span, strip `**`, and when the
span was found and the currency is not USD, run the dollar-amount
enhancement. -/
def generate_budget_section (itinerary : String) (preferred_currency : String) : String :=
  let lines := lineSplit itinerary.data
  let p := locate_budget lines
  let budget_section := remove_asterisks p.2
  if p.1 = true ∧ preferred_currency ≠ "USD" then
    enhance_budget budget_section preferred_currency
  else budget_section

/-! ## src/itinerary_planner.py — `extract_duration` -/

/-- Case-insensitive literal match of a (lowercase) pattern fragment against
the head of the input (`re.IGNORECASE`); returns the rest on success. -/
def ciPrefixDrop : List Char → List Char → Option (List Char)
  | [], s => some s
  | _ :: _, [] => none
  | p :: ps, c :: cs => if c.toLower = p then ciPrefixDrop ps cs else none

/-- One attempted match of `(\d+)\s+<unit>s?` (case-insensitive) at the start
of `cs`: greedy digits, at least one whitespace, then the unit word.  The
optional trailing `s` does not affect success and the capture is only the
digit run, so it needs no explicit handling. -/
def matchDurAt (unit : List Char) (cs : List Char) : Option ℕ :=
  let ds := cs.takeWhile Char.isDigit
  if ds = [] then none
  else
    let r1 := cs.dropWhile Char.isDigit
    let ws := r1.takeWhile isPySpace
    if ws = [] then none
    else
      match ciPrefixDrop unit (r1.dropWhile isPySpace) with
      | some _ => some (digitsToNat ds)
      | none => none

/-- Left-to-right scan of `re.search(r'(\d+)\s+<unit>s?', text,
re.IGNORECASE)`: the leftmost position at which the pattern matches wins; the
captured integer is returned. -/
def reSearchAux (unit : List Char) : ℕ → List Char → Option ℕ
  | 0, _ => none
  | _ + 1, [] => none
  | fuel + 1, c :: cs =>
    match matchDurAt unit (c :: cs) with
    | some n => some n
    | none => reSearchAux unit fuel cs

/-- The `re.search` call of `extract_duration` for one duration pattern,
parametrised by the unit word (`"day"`, `"week"`, `"night"`). -/
def re_search_duration (unit : String) (text : String) : Option ℕ :=
  reSearchAux unit.data text.data.length text.data

/-- Model of `extract_duration(text)` from `itinerary_planner.py`: the three
patterns are tried in the fixed order day, week, night; the first pattern
that matches anywhere wins.  The source recomputes the matched unit word as
`match.group(0).split()[-1].lower()` and tests `'week' in unit`; for these
patterns that unit word is always the pattern's own unit (with an optional
trailing `s`), so the test reduces to the dispatch written here: a week match
is multiplied by 7, day and night matches are returned unchanged, and with no
match the result is `none` (Python `None`). -/
def extract_duration (text : String) : Option ℕ :=
  match re_search_duration "day" text with
  | some n => some n
  | none =>
    match re_search_duration "week" text with
    | some n => some (n * 7)
    | none =>
      match re_search_duration "night" text with
      | some n => some n
      | none => none

/-! ## src/itinerary_planner.py — `extract_destinations` -/

/-- The fixed phrase list `travel_verbs` of `extract_destinations`. -/
def travel_verbs : List String :=
  ["visit", "travel to", "go to", "explore", "see", "vacation in", "holiday in", "trip to"]

/-- Character class `[A-Za-z\s,]` of the destination-capture pattern. -/
def destClassChar (c : Char) : Bool :=
  c.isAlpha || isPySpace c || c == ','

/-- One attempted match of `<verb>\s+([A-Za-z\s,]+)` (case-insensitive) at the
start of `cs`; on success returns the capture and the rest of the input after
the whole match.  The greedy `\s+` normally leaves the capture to start at
the first non-whitespace character, but when nothing of the class follows the
whitespace run, the regex engine backtracks `\s+` by one character and the
capture becomes the last whitespace character of the run (possible only when
the run has length at least two). -/
def matchVerbAt (verb : List Char) (cs : List Char) : Option (List Char × List Char) :=
  match ciPrefixDrop verb cs with
  | none => none
  | some r0 =>
    let ws := r0.takeWhile isPySpace
    if ws = [] then none
    else
      let r1 := r0.dropWhile isPySpace
      let cls := r1.takeWhile destClassChar
      if cls ≠ [] then some (cls, r1.dropWhile destClassChar)
      else if 2 ≤ ws.length then some ([ws.getLastD ' '], r1)
      else none

/-- Left-to-right scan of `re.findall(f"{verb}\\s+([A-Za-z\\s,]+)", text,
re.IGNORECASE)`: leftmost non-overlapping matches, captures in text order. -/
def findVerbAux (verb : List Char) : ℕ → List Char → List (List Char)
  | 0, _ => []
  | _ + 1, [] => []
  | fuel + 1, c :: cs =>
    match matchVerbAt verb (c :: cs) with
    | some (cap, rest) => cap :: findVerbAux verb fuel rest
    | none => findVerbAux verb fuel cs

/-- The characters removed by `re.sub(r'[,.!?]+$', '', dest)`. -/
def punctChar (c : Char) : Bool :=
  c == ',' || c == '.' || c == '!' || c == '?'

/-- Python `re.sub(r'[,.!?]+$', '', dest)`: drop the maximal trailing run of
`, . ! ?`. -/
def dropTrailingPunct (l : List Char) : List Char :=
  (l.reverse.dropWhile punctChar).reverse

/-- The cleaned captures one verb contributes (lines 188–195 of
`itinerary_planner.py`): each raw capture is stripped, trailing punctuation
removed, and kept only when non-empty of length greater than 2. -/
def verbCaptures (verb : String) (text : String) : List String :=
  (findVerbAux verb.data text.data.length text.data).filterMap (fun m =>
    let dest := dropTrailingPunct (pyStripL m)
    if dest ≠ [] ∧ 2 < dest.length then some (String.mk dest) else none)

/-- Python `text.split()` with no argument: whitespace-separated words, no
empty strings. -/
def wordsAux : ℕ → List Char → List (List Char)
  | 0, _ => []
  | _ + 1, [] => []
  | fuel + 1, c :: cs =>
    if isPySpace c then wordsAux fuel cs
    else (c :: cs.takeWhile (fun d => !isPySpace d)) ::
      wordsAux fuel (cs.dropWhile (fun d => !isPySpace d))

/-- Python `text.split()` at `String` level. -/
def pyWords (text : String) : List (List Char) :=
  wordsAux text.data.length text.data

/-- The stoplist of the fallback branch of `extract_destinations`. -/
def stop_words : List String :=
  ["plan", "trip", "day", "week", "itinerary"]

/-- Fallback branch (lines 198–204): any word whose first character is upper
case, longer than 3 characters, whose lowercasing is not in the stoplist. -/
def fallback_destinations (text : String) : List String :=
  (pyWords text).filterMap (fun w =>
    if (w.headD ' ').isUpper ∧ 3 < w.length ∧ String.mk (w.map Char.toLower) ∉ stop_words
    then some (String.mk w) else none)

/-- Deduplication loop of lines 206–210: keep the first occurrence of each
destination, preserving order (`if dest not in unique: unique.append(dest)`). -/
def dedup_first (l : List String) : List String :=
  l.foldl (fun acc dest => if dest ∈ acc then acc else acc ++ [dest]) []

/-- Model of `extract_destinations(text)` from `itinerary_planner.py`: the
verb patterns are tried in list order, each contributing its cleaned captures
in text order; the capitalized-word fallback is used only when no verb
produced anything; the result is deduplicated preserving first occurrences. -/
def extract_destinations (text : String) : List String :=
  let destinations := (travel_verbs.map (fun verb => verbCaptures verb text)).flatten
  let destinations := if destinations.isEmpty then fallback_destinations text else destinations
  dedup_first destinations

/-! ## src/itinerary_planner.py — `get_attractions` response handling -/

/-- Attraction record returned by `get_attractions`. -/
structure Attraction where
  name : String
  category : String
  description : String
  best_for : String
deriving DecidableEq

/-- The fixed two-item placeholder list of lines 108–121 of
`itinerary_planner.py`, substituted when JSON parsing fails. -/
def fallback_attractions (location : String) : List Attraction :=
  [{ name := "Top Attraction 1 in " ++ location,
     category := "Popular Landmark",
     description := "A must-visit destination known for its significance.",
     best_for := "History enthusiasts" },
   { name := "Top Attraction 2 in " ++ location,
     category := "Museum",
     description := "Famous museum housing an impressive collection.",
     best_for := "Art and history lovers" }]

/-- Splitting on a non-empty separator, used by `pySplitStr`: leftmost
non-overlapping separator occurrences delimit the pieces. -/
def splitOnSepAux (sep : List Char) : ℕ → List Char → List Char → List String
  | 0, acc, l => [String.mk (acc.reverse ++ l)]
  | _ + 1, acc, [] => [String.mk acc.reverse]
  | fuel + 1, acc, c :: cs =>
    if sep ≠ [] ∧ sep.isPrefixOf (c :: cs) then
      String.mk acc.reverse :: splitOnSepAux sep fuel [] (List.drop sep.length (c :: cs))
    else
      splitOnSepAux sep fuel (c :: acc) cs

/-- Python `s.split(sep)` for non-empty `sep`. -/
def splitOnSep (l sep : List Char) : List String :=
  splitOnSepAux sep l.length [] l

/-- Python `s.split(sep)`: raises `ValueError("empty separator")` when `sep`
is empty, otherwise splits on the separator. -/
def pySplitStr (s sep : String) : Except String (List String) :=
  if sep = "" then .error "empty separator"
  else .ok (splitOnSep s.data sep.data)

/-- Lines 97–100 of `itinerary_planner.py`, the fence-cleanup of the model
response: `if "json" in t: t = t.split("json")[1].split("")[0].strip()
elif "" in t: t = t.split("")[1].split("")[0].strip()`.  The `[1]`/`[0]`
indexings are modelled with a default that is unreachable: under the guard
`"json" in t` the first split has at least two parts, and each later indexing
sits after a `split("")` that already raised. -/
def clean_attractions_text (t : String) : Except String String :=
  if pyIn "json" t then
    match pySplitStr t "json" with
    | .error e => .error e
    | .ok parts =>
      match pySplitStr ((parts[1]?).getD "") "" with
      | .error e => .error e
      | .ok parts2 => .ok (String.mk (pyStripL ((parts2[0]?).getD "").data))
  else if pyIn "" t then
    match pySplitStr t "" with
    | .error e => .error e
    | .ok parts =>
      match pySplitStr ((parts[1]?).getD "") "" with
      | .error e => .error e
      | .ok parts2 => .ok (String.mk (pyStripL ((parts2[0]?).getD "").data))
  else .ok t

/-- Model of the response-handling part of `get_attractions` (lines 94–123):
given the text of the generative-service response and an abstract JSON parser
for the expected attraction-list format, produce either the error string
built by the outer `except` handler (`Sum.inl`) or an attraction list
(`Sum.inr`).  An exception raised by the cleanup is caught by the outer
handler, which returns `"Error generating attractions: " + str(e)`; only
`json.loads` failures are caught by the inner handler that substitutes the
placeholder list. -/
def get_attractions_model (location text : String)
    (parse_json : String → Option (List Attraction)) : String ⊕ List Attraction :=
  match clean_attractions_text text with
  | .error e => Sum.inl ("Error generating attractions: " ++ e)
  | .ok t =>
    match parse_json t with
    | some l => Sum.inr l
    | none => Sum.inr (fallback_attractions location)

/-- Newline-joined line list: `joinNl [l1, ..., lk] = l1 ++ "\n" ++ ... ++ lk ++ "\n"`.
Used to state what the budget locator collects. -/
def joinNl : List String → String
  | [] => ""
  | l :: rest => l ++ "\n" ++ joinNl rest

/-- Dollar-amount literal of shape `digits[,digits][.digits]`: a mandatory
digit run, at most one thousands-separator group, an optional fractional
part.  Used to state which literals the dollar regex captures whole. -/
def amountLit (a : List Char) (b c : Option (List Char)) : List Char :=
  a ++ (match b with | none => [] | some bs => ',' :: bs)
    ++ (match c with | none => [] | some cs => '.' :: cs)

/-- The list is empty or does not begin with a decimal digit. -/
def headNotDigit : List Char → Bool
  | [] => true
  | y :: _ => !y.isDigit

/-- The span continuation `rest` cannot extend a dollar-amount match of shape
`amountLit a b c`: it does not begin with a digit (which would join the last
digit run); when neither optional group is present it does not begin with a
comma followed by a digit (which would become the separator group); and when
the fractional group is absent it does not begin with a dot followed by a
digit (which would become the fractional group).  A comma or dot followed by
a non-digit never extends a match. -/
def cannotExtend (b c : Option (List Char)) : List Char → Bool
  | [] => true
  | x :: rs =>
    !x.isDigit &&
    (!(b.isNone && c.isNone && x == ',') || headNotDigit rs) &&
    (!(c.isNone && x == '.') || headNotDigit rs)

/-! ## Helper lemmas -/

/-- Membership of the empty pattern: Python's `"" in s` is always `True`. -/
theorem containsSub_nil (l : List Char) : containsSub [] l = true := by
  cases l <;> simp [containsSub, List.isPrefixOf]

/-- When no line is a budget heading, the locator loop reports not-found with
an empty section. -/
theorem locate_budget_not_found (lines : List String)
    (h : ∀ l ∈ lines, budget_heading_line l = false) :
    locate_budget lines = (false, "") := by
  induction lines with
  | nil => rfl
  | cons l rest ih =>
    have h1 : budget_heading_line l = false := h l (List.mem_cons_self l rest)
    simp only [locate_budget, h1, Bool.false_eq_true, if_false]
    exact ih fun x hx => h x (List.mem_cons_of_mem _ hx)

/-- The locator loop skips a prefix of non-heading lines. -/
theorem locate_budget_skip (pre rest : List String)
    (h : ∀ l ∈ pre, budget_heading_line l = false) :
    locate_budget (pre ++ rest) = locate_budget rest := by
  induction pre with
  | nil => rfl
  | cons l p ih =>
    have h1 : budget_heading_line l = false := h l (List.mem_cons_self l p)
    simp only [List.cons_append, locate_budget, h1, Bool.false_eq_true, if_false]
    exact ih fun x hx => h x (List.mem_cons_of_mem _ hx)

/-- The collection loop of the locator gathers exactly the lines before the
next heading line. -/
theorem budget_section_lines_eq (post : List String) :
    budget_section_lines post = joinNl (post.takeWhile (fun l => !pyStartsWith l "#")) := by
  induction post with
  | nil => rfl
  | cons l rest ih =>
    by_cases h : pyStartsWith l "#" = true
    · simp [budget_section_lines, joinNl, h, List.takeWhile_cons]
    · have hf : pyStartsWith l "#" = false := by simpa using h
      simp [budget_section_lines, joinNl, hf, List.takeWhile_cons, ih]

/-- Absence of two consecutive asterisks — the invariant that makes
`remove_asterisks` idempotent. -/
def noDoubleStar : List Char → Bool
  | a :: b :: t => if a = '*' ∧ b = '*' then false else noDoubleStar (b :: t)
  | _ => true

/-- The tail of a double-star-free list is double-star-free. -/
theorem noDoubleStar_tail {c : Char} {l : List Char} (h : noDoubleStar (c :: l) = true) :
    noDoubleStar l = true := by
  cases l with
  | nil => rfl
  | cons b t =>
    by_cases hcb : c = '*' ∧ b = '*'
    · simp [noDoubleStar, hcb] at h
    · simpa [noDoubleStar, hcb] using h

/-- Extending a double-star-free list by a character that creates no pair. -/
theorem noDoubleStar_cons (c : Char) (l : List Char) (hl : noDoubleStar l = true)
    (h : c ≠ '*' ∨ l.head? ≠ some '*') : noDoubleStar (c :: l) = true := by
  cases l with
  | nil => rfl
  | cons b t =>
    have hb : ¬(c = '*' ∧ b = '*') := by
      rcases h with h | h
      · tauto
      · intro hcb
        exact h (by simp [hcb.2])
    simpa [noDoubleStar, hb] using hl

/-- The replacement loop on an empty input. -/
theorem pyReplaceAux_nil (old new : List Char) (fuel : ℕ) :
    pyReplaceAux old new fuel [] = [] := by
  cases fuel <;> rfl

/-- Unfolding `replace("**", "")` at a double star: both are consumed. -/
theorem pyReplaceAux_star2 (fuel : ℕ) (t : List Char) :
    pyReplaceAux ['*', '*'] [] (fuel + 1) ('*' :: '*' :: t) = pyReplaceAux ['*', '*'] [] fuel t := by
  simp [pyReplaceAux, List.isPrefixOf]

/-- Unfolding `replace("**", "")` at a non-match: the character is kept. -/
theorem pyReplaceAux_cons_not_pre (fuel : ℕ) (c : Char) (cs : List Char)
    (h : ¬(['*', '*'] : List Char).isPrefixOf (c :: cs) = true) :
    pyReplaceAux ['*', '*'] [] (fuel + 1) (c :: cs) = c :: pyReplaceAux ['*', '*'] [] fuel cs := by
  simp [pyReplaceAux, h]

/-- The output of `replace("**", "")` never contains two consecutive
asterisks. -/
theorem remAst_noDoubleStar :
    ∀ (fuel : ℕ) (l : List Char), l.length ≤ fuel →
      noDoubleStar (pyReplaceAux ['*', '*'] [] fuel l) = true := by
  intro fuel
  induction fuel with
  | zero =>
    intro l hl
    have : l = [] := List.eq_nil_of_length_eq_zero (Nat.le_zero.mp hl)
    subst this
    rfl
  | succ n ih =>
    intro l hl
    cases l with
    | nil => rfl
    | cons c cs =>
      by_cases hpre : (['*', '*'] : List Char).isPrefixOf (c :: cs) = true
      · cases cs with
        | nil => simp [List.isPrefixOf] at hpre
        | cons b t =>
          simp [List.isPrefixOf] at hpre
          obtain ⟨hc, hb⟩ := hpre
          subst hc; subst hb
          rw [pyReplaceAux_star2]
          have : t.length ≤ n := by simp [List.length_cons] at hl; omega
          exact ih t this
      · rw [pyReplaceAux_cons_not_pre _ _ _ hpre]
        have hcs : cs.length ≤ n := by simp [List.length_cons] at hl; omega
        have hout := ih cs hcs
        refine noDoubleStar_cons _ _ hout ?_
        by_cases hc : c = '*'
        · right
          subst hc
          cases cs with
          | nil => simp [pyReplaceAux_nil]
          | cons b t =>
            have hb : b ≠ '*' := by
              intro hb
              subst hb
              simp [List.isPrefixOf] at hpre
            cases n with
            | zero => simp [List.length_cons] at hcs
            | succ m =>
              rw [pyReplaceAux_cons_not_pre _ _ _ (by simp [List.isPrefixOf, Ne.symm hb])]
              simp [hb]
        · left; exact hc

/-- On a double-star-free input, `replace("**", "")` is the identity. -/
theorem remAst_id_of_noDoubleStar :
    ∀ (fuel : ℕ) (l : List Char), l.length ≤ fuel → noDoubleStar l = true →
      pyReplaceAux ['*', '*'] [] fuel l = l := by
  intro fuel
  induction fuel with
  | zero => intro l _ _; rfl
  | succ n ih =>
    intro l hl hnd
    cases l with
    | nil => rfl
    | cons c cs =>
      have hpre : ¬(['*', '*'] : List Char).isPrefixOf (c :: cs) = true := by
        intro hpre
        cases cs with
        | nil => simp [List.isPrefixOf] at hpre
        | cons b t =>
          simp [List.isPrefixOf] at hpre
          obtain ⟨hc, hb⟩ := hpre
          subst hc
          subst hb
          simp [noDoubleStar] at hnd
      rw [pyReplaceAux_cons_not_pre _ _ _ hpre]
      have hcs : cs.length ≤ n := by simp [List.length_cons] at hl; omega
      rw [ih cs hcs (noDoubleStar_tail hnd)]

/-- A run of characters satisfying `p` followed by a non-`p` head splits
cleanly under `takeWhile`/`dropWhile`. -/
theorem takeWhile_all_append (p : Char → Bool) (a r : List Char)
    (ha : ∀ x ∈ a, p x = true) (hr : ∀ x, r.head? = some x → p x = false) :
    (a ++ r).takeWhile p = a ∧ (a ++ r).dropWhile p = r := by
  induction a with
  | nil =>
    cases r with
    | nil => simp
    | cons c t =>
      have h := hr c rfl
      simp [List.takeWhile_cons, List.dropWhile_cons, h]
  | cons c a ih =>
    have hc : p c = true := ha c (by simp)
    have ih' := ih (fun x hx => ha x (by simp [hx]))
    simp [List.takeWhile_cons, List.dropWhile_cons, hc, ih'.1, ih'.2]

/-- A head that is not a digit, in `head?` form. -/
theorem headNotDigit_head? {Y : List Char} (h : headNotDigit Y = true) :
    ∀ x, Y.head? = some x → x.isDigit = false := by
  cases Y with
  | nil => intro x hx; cases hx
  | cons y t =>
    intro x hx
    simp at hx
    subst hx
    simpa [headNotDigit] using h

/-- A non-extending continuation does not begin with a digit. -/
theorem cannotExtend_headNotDigit {b c : Option (List Char)} {rest : List Char}
    (h : cannotExtend b c rest = true) : headNotDigit rest = true := by
  cases rest with
  | nil => rfl
  | cons x rs =>
    simp [cannotExtend, headNotDigit] at h ⊢
    tauto

/-- With both groups absent, a non-extending continuation that begins with a
comma has no digit after it. -/
theorem cannotExtend_comma {rest rs : List Char}
    (h : cannotExtend none none rest = true) (hrs : rest = ',' :: rs) :
    headNotDigit rs = true := by
  subst hrs
  simp [cannotExtend] at h
  tauto

/-- With the fractional group absent, a non-extending continuation that
begins with a dot has no digit after it. -/
theorem cannotExtend_dot {b : Option (List Char)} {rest rs : List Char}
    (h : cannotExtend b none rest = true) (hrs : rest = '.' :: rs) :
    headNotDigit rs = true := by
  subst hrs
  simp [cannotExtend] at h
  tauto

/-- An optional group matches the empty string when the input does not start
with the separator followed by a digit. -/
theorem optGroup_none (sep : Char) (X : List Char)
    (h : ∀ rs, X = sep :: rs → headNotDigit rs = true) :
    optGroup sep X = ([], X) := by
  cases X with
  | nil => rfl
  | cons x rs =>
    by_cases hx : x = sep
    · subst hx
      have hrs := h rs rfl
      have htw : rs.takeWhile Char.isDigit = [] := by
        cases rs with
        | nil => rfl
        | cons y t =>
          simp [headNotDigit] at hrs
          simp [List.takeWhile_cons, hrs]
      simp [optGroup, takeDigits, htw]
    · simp [optGroup, hx]

/-- An optional group consumes its separator and digit run whole when they
are present and followed by a non-digit. -/
theorem optGroup_some (sep : Char) (bs Y : List Char)
    (hbs : bs ≠ []) (hbs' : ∀ x ∈ bs, x.isDigit = true) (hY : headNotDigit Y = true) :
    optGroup sep (sep :: (bs ++ Y)) = (sep :: bs, Y) := by
  obtain ⟨e1, e2⟩ := takeWhile_all_append Char.isDigit bs Y hbs' (headNotDigit_head? hY)
  simp [optGroup, takeDigits, e1, e2, hbs]

/-- The dollar-amount pattern captures a whole `digits[,digits][.digits]`
literal when attempted right after the `$`, leaving a continuation that
cannot extend the match untouched. -/
theorem matchAmount_whole (a : List Char) (b c : Option (List Char)) (rest : List Char)
    (ha : a ≠ []) (ha' : ∀ x ∈ a, x.isDigit = true)
    (hb : b.elim True fun bs => bs ≠ [] ∧ ∀ x ∈ bs, x.isDigit = true)
    (hc : c.elim True fun cs => cs ≠ [] ∧ ∀ x ∈ cs, x.isDigit = true)
    (hrest : cannotExtend b c rest = true) :
    matchAmount (amountLit a b c ++ rest) = some (amountLit a b c, rest) := by
  have hnd : headNotDigit rest = true := cannotExtend_headNotDigit hrest
  rcases b with _ | bs <;> rcases c with _ | cs
  · -- no comma group, no fractional part
    obtain ⟨e1, e2⟩ := takeWhile_all_append Char.isDigit a rest ha' (headNotDigit_head? hnd)
    have hq := optGroup_none ',' rest (fun rs hrs => cannotExtend_comma hrest hrs)
    have hr := optGroup_none '.' rest (fun rs hrs => cannotExtend_dot hrest hrs)
    unfold matchAmount takeDigits
    simp [amountLit, e1, e2, ha, hq, hr]
  · -- no comma group, fractional part present
    obtain ⟨hcne, hcd⟩ := hc
    obtain ⟨e1, e2⟩ := takeWhile_all_append Char.isDigit a ('.' :: (cs ++ rest)) ha'
      (fun x hx => by simp at hx; subst hx; decide)
    have hq := optGroup_none ',' ('.' :: (cs ++ rest)) (fun rs hrs => by simp at hrs)
    have hr := optGroup_some '.' cs rest hcne hcd hnd
    unfold matchAmount takeDigits
    simp only [amountLit, List.nil_append, List.cons_append, List.append_assoc] at e1 e2 ⊢
    simp [e1, e2, ha, hq, hr]
  · -- comma group present, no fractional part
    obtain ⟨hbne, hbd⟩ := hb
    obtain ⟨e1, e2⟩ := takeWhile_all_append Char.isDigit a (',' :: (bs ++ rest)) ha'
      (fun x hx => by simp at hx; subst hx; decide)
    have hq := optGroup_some ',' bs rest hbne hbd hnd
    have hr := optGroup_none '.' rest (fun rs hrs => cannotExtend_dot hrest hrs)
    unfold matchAmount takeDigits
    simp only [amountLit, List.append_nil, List.cons_append, List.append_assoc] at e1 e2 ⊢
    simp [e1, e2, ha, hq, hr]
  · -- comma group and fractional part present
    obtain ⟨hbne, hbd⟩ := hb
    obtain ⟨hcne, hcd⟩ := hc
    obtain ⟨e1, e2⟩ := takeWhile_all_append Char.isDigit a (',' :: (bs ++ '.' :: (cs ++ rest))) ha'
      (fun x hx => by simp at hx; subst hx; decide)
    have hq := optGroup_some ',' bs ('.' :: (cs ++ rest)) hbne hbd (by simp [headNotDigit])
    have hr := optGroup_some '.' cs rest hcne hcd hnd
    unfold matchAmount takeDigits
    simp only [amountLit, List.cons_append, List.append_assoc] at e1 e2 ⊢
    simp [e1, e2, ha, hq, hr]

/-- The dollar scan passes over a dollar-free prefix without consuming
anything but fuel. -/
theorem findDollarAux_no_dollar (pre : List Char) (k : ℕ) (l : List Char)
    (hpre : '$' ∉ pre) :
    findDollarAux (pre.length + k) (pre ++ l) = findDollarAux k l := by
  induction pre with
  | nil => simp
  | cons d p ih =>
    have hd : d ≠ '$' := fun h => hpre (h ▸ List.mem_cons_self d p)
    have hp : '$' ∉ p := fun h => hpre (List.mem_cons_of_mem _ h)
    have hlen : (d :: p).length + k = (p.length + k) + 1 := by
      simp [List.length_cons]
      omega
    rw [hlen]
    show findDollarAux ((p.length + k) + 1) (d :: (p ++ l)) = _
    simp only [findDollarAux, if_neg hd]
    exact ih hp

/-- Membership in the first-occurrence deduplication fold. -/
theorem dedup_fold_mem (l : List String) : ∀ (acc : List String) (a : String),
    (a ∈ l.foldl (fun acc dest => if dest ∈ acc then acc else acc ++ [dest]) acc)
      ↔ a ∈ acc ∨ a ∈ l := by
  induction l with
  | nil => intro acc a; simp
  | cons d t ih =>
    intro acc a
    rw [List.foldl_cons, ih]
    by_cases hd : d ∈ acc
    · simp only [if_pos hd]
      constructor
      · exact fun h => h.elim Or.inl (fun h => Or.inr (List.mem_cons_of_mem _ h))
      · rintro (h | h)
        · exact Or.inl h
        · rcases List.mem_cons.mp h with rfl | h2
          · exact Or.inl hd
          · exact Or.inr h2
    · simp only [if_neg hd]
      rw [List.mem_append]
      constructor
      · rintro ((h | h) | h)
        · exact Or.inl h
        · exact Or.inr (List.mem_cons.mpr (Or.inl (List.mem_singleton.mp h)))
        · exact Or.inr (List.mem_cons_of_mem _ h)
      · rintro (h | h)
        · exact Or.inl (Or.inl h)
        · rcases List.mem_cons.mp h with rfl | h2
          · exact Or.inl (Or.inr (List.mem_singleton.mpr rfl))
          · exact Or.inr h2

/-- The deduplication fold only ever appends: its start state is a prefix of
its result. -/
theorem dedup_fold_prefix (l : List String) : ∀ acc : List String, ∃ t,
    l.foldl (fun acc dest => if dest ∈ acc then acc else acc ++ [dest]) acc = acc ++ t := by
  induction l with
  | nil => exact fun acc => ⟨[], by simp⟩
  | cons d l ih =>
    intro acc
    rw [List.foldl_cons]
    by_cases hd : d ∈ acc
    · simp only [if_pos hd]
      exact ih acc
    · simp only [if_neg hd]
      obtain ⟨t, ht⟩ := ih (acc ++ [d])
      exact ⟨d :: t, by rw [ht, List.append_assoc]; rfl⟩

/-- Indexing at the length of the left part of an append hits the element in
the middle. -/
theorem getElem?_append_mid (u w : List String) (d : String) :
    (u ++ d :: w)[u.length]? = some d := by
  rw [List.getElem?_append_right (Nat.le_refl _)]
  simp

/-! ## Claim theorems -/

/-- C1: for the document `"## Budget\nTotal: $1,200 for flights\n## Tips\nBring sunscreen"`
and target currency EUR (rate 0.91), `generate_budget_section` returns the
budget span with `$1,200` rendered as `$1,200 (€1,092.00)`; the `## Tips`
heading and its content are excluded from the returned span and untouched by
the dollar-amount replacement. -/
theorem c1_budget_eur_scenario :
    generate_budget_section "## Budget\nTotal: $1,200 for flights\n## Tips\nBring sunscreen" "EUR"
      = "## Budget\nTotal: $1,200 (€1,092.00) for flights\n" := by decide

/-- C2 (code bug, evaluation at the failing input): the source iterates the
raw `re.findall` result, which lists a duplicated literal once per
occurrence, and each iteration replaces every occurrence of `$100` in the
running text — including occurrences already annotated by the previous
iteration.  A span containing `$100` twice therefore comes out with every
occurrence double-annotated, not annotated exactly once as the claim
requires; the code does not operate on the distinct-literal set. -/
theorem c2_duplicate_literal_double_wrapped :
    generate_budget_section "## Budget\n$100 tour and $100 museum" "EUR"
      = "## Budget\n$100 (€91.00) (€91.00) tour and $100 (€91.00) (€91.00) museum\n" := by decide

/-- C3 (code bug, evaluation at the failing input): applying the dollar
enhancement loop twice to the span `$100` double-wraps the amount — the
second pass matches the bare `$100` literal inside `$100 (€91.00)` and the
substring replacement appends a second parenthetical, contradicting the
claim that a second application never wraps an already-converted amount. -/
theorem c3_second_pass_double_wraps :
    enhance_budget (enhance_budget "$100" "EUR") "EUR" = "$100 (€91.00) (€91.00)" ∧
    enhance_budget (enhance_budget "$100" "EUR") "EUR" ≠ enhance_budget "$100" "EUR" := by decide

/-- C4: when no line of the document contains both the case-insensitive
substring "budget" and a `#`, `generate_budget_section` returns the empty
string (the not-found outcome, no error); when the first such line exists,
the located span is that line followed by the subsequent lines up to but
excluding the next line that begins with `#`. -/
theorem c4_budget_locator (doc cur : String) :
    ((lineSplit doc.data).all (fun l => !budget_heading_line l) = true →
      generate_budget_section doc cur = "") ∧
    (∀ pre line post, lineSplit doc.data = pre ++ line :: post →
      budget_heading_line line = true →
      (∀ l ∈ pre, budget_heading_line l = false) →
      locate_budget (lineSplit doc.data)
        = (true, line ++ "\n" ++ joinNl (post.takeWhile (fun l => !pyStartsWith l "#")))) := by
  constructor
  · intro h
    have h' : ∀ l ∈ lineSplit doc.data, budget_heading_line l = false := by
      intro l hl
      have := List.all_eq_true.mp h l hl
      simpa using this
    unfold generate_budget_section
    simp [locate_budget_not_found _ h', remove_asterisks, pyReplace, pyReplaceAux]
  · intro pre line post heq hline hpre
    rw [heq, locate_budget_skip pre _ hpre]
    simp [locate_budget, hline, budget_section_lines_eq]

/-- C4 witness: a document with no budget heading yields `""`; a document
whose second line is the budget heading yields the span up to but excluding
the `## Tips` line. -/
theorem c4_budget_locator_witness :
    generate_budget_section "Intro line\nNo heading here" "EUR" = "" ∧
    locate_budget (lineSplit "Overview\n## Budget\nRooms: cheap\n## Tips\nmore".data)
      = (true, "## Budget\nRooms: cheap\n") :=
  ⟨(c4_budget_locator "Intro line\nNo heading here" "EUR").1 (by decide),
   (c4_budget_locator "Overview\n## Budget\nRooms: cheap\n## Tips\nmore" "EUR").2
     ["Overview"] "## Budget" ["Rooms: cheap", "## Tips", "more"]
     (by decide) (by decide) (by decide)⟩

/-- C5: `extract_duration` tries the three patterns in the fixed order day,
week, night; the first pattern that matches anywhere in the text governs (a
day match is returned unchanged even when a night phrase occurs earlier in
the string), a week match is multiplied by 7, a night match is returned
unchanged, and when no pattern matches the result is `none` — not 0 and not
an error. -/
theorem c5_duration_pattern_priority (text : String) :
    (∀ n, re_search_duration "day" text = some n → extract_duration text = some n) ∧
    (re_search_duration "day" text = none →
      ∀ n, re_search_duration "week" text = some n → extract_duration text = some (n * 7)) ∧
    (re_search_duration "day" text = none → re_search_duration "week" text = none →
      ∀ n, re_search_duration "night" text = some n → extract_duration text = some n) ∧
    (re_search_duration "day" text = none → re_search_duration "week" text = none →
      re_search_duration "night" text = none → extract_duration text = none) := by
  refine ⟨?_, ?_, ?_, ?_⟩ <;> intros <;> simp_all [extract_duration]

/-- C5 witness: on "2 weeks" the day pattern fails, the week pattern captures
2, and the result is 14. -/
theorem c5_duration_pattern_priority_witness : extract_duration "2 weeks" = some 14 :=
  (c5_duration_pattern_priority "2 weeks").2.1 (by decide) 2 (by decide)

/-- C6 counterexample: on the spec's end-to-end input the duration is NOT 7 —
the hyphen in "7-day" is not whitespace, so `(\d+)\s+days?` has no match
anywhere in the text. -/
theorem c6_hyphenated_duration_not_extracted :
    extract_duration "Plan a 7-day trip to Tokyo and Kyoto in autumn for a solo traveler"
      ≠ some 7 := by decide

/-- C6 amended: on the input "Plan a 7-day trip to Tokyo and Kyoto in autumn
for a solo traveler", `extract_duration` returns `none` (the hyphenated
"7-day" does not match any duration pattern), and `extract_destinations`
returns the single "trip to" capture "Tokyo and Kyoto in autumn for a solo
traveler", which contains "Tokyo" as a substring but not as a standalone
element. -/
theorem c6_amended_scenario :
    extract_duration "Plan a 7-day trip to Tokyo and Kyoto in autumn for a solo traveler" = none ∧
    extract_destinations "Plan a 7-day trip to Tokyo and Kyoto in autumn for a solo traveler"
      = ["Tokyo and Kyoto in autumn for a solo traveler"] ∧
    pyIn "Tokyo" "Tokyo and Kyoto in autumn for a solo traveler" = true := by decide

/-- C7 (code bug): for every response text, the fence-cleanup of
`get_attractions` raises `ValueError("empty separator")` — when `"json"` is
in the text the cleanup calls `.split("")`, and otherwise the guard
`"" in text` is always true and the `elif` branch calls `.split("")` too — so
the outer handler returns the error string and the two-item placeholder
fallback (and the JSON parser itself) is unreachable, contradicting the claim
that unparseable responses produce the placeholder list. -/
theorem c7_attractions_cleanup_always_errors (location text : String)
    (parse_json : String → Option (List Attraction)) :
    get_attractions_model location text parse_json
      = Sum.inl "Error generating attractions: empty separator" := by
  unfold get_attractions_model clean_attractions_text
  by_cases h : pyIn "json" text = true
  · simp [h, pySplitStr]
  · have h0 : pyIn "" text = true := containsSub_nil _
    simp [h, h0, pySplitStr]

/-- C8 counterexample: `$1,200,000` is not recognized as a single amount —
the regex allows at most one `,digits` group, so only `$1,200` is captured,
and the in-place replacement splits the printed literal. -/
theorem c8_multi_separator_amount_split :
    findDollarAmounts "Cost $1,200,000 total" = ["1,200"] ∧
    generate_budget_section "## Budget\nCost $1,200,000 total" "EUR"
      = "## Budget\nCost $1,200 (€1,092.00),000 total\n" := by decide

/-- C8 amended: every dollar-marked amount with at most one
thousands-separator group and an optional fractional part
(`$<digits>[,digits][.digits]`) is recognized as one single monetary amount
and captured whole — wherever it occurs in the span after a dollar-free
prefix, and whatever follows it, provided the continuation cannot extend the
match (it does not begin with a digit, nor with a separator-plus-digit that
the pattern's unused optional groups would absorb).  Amounts with a second
separator group fall outside the pattern (see the counterexample). -/
theorem c8_single_group_amount_matched_whole
    (pre a : List Char) (b c : Option (List Char)) (rest : List Char)
    (hpre : '$' ∉ pre)
    (ha : a ≠ [] ∧ ∀ x ∈ a, x.isDigit = true)
    (hb : b.elim True fun bs => bs ≠ [] ∧ ∀ x ∈ bs, x.isDigit = true)
    (hc : c.elim True fun cs => cs ≠ [] ∧ ∀ x ∈ cs, x.isDigit = true)
    (hrest : cannotExtend b c rest = true) :
    (findDollarAmounts (String.mk (pre ++ '$' :: (amountLit a b c ++ rest)))).head?
      = some (String.mk (amountLit a b c)) := by
  have hm := matchAmount_whole a b c rest ha.1 ha.2 hb hc hrest
  unfold findDollarAmounts
  show ((findDollarAux (pre ++ '$' :: (amountLit a b c ++ rest)).length
      (pre ++ '$' :: (amountLit a b c ++ rest))).map String.mk).head? = _
  have hlen : (pre ++ '$' :: (amountLit a b c ++ rest)).length
      = pre.length + ((amountLit a b c ++ rest).length + 1) := by
    simp [List.length_append, List.length_cons]
  rw [hlen, findDollarAux_no_dollar pre _ _ hpre]
  simp [findDollarAux, hm]

/-- C8 amended witness: the four single-group shapes — plain `$500`,
comma-only `$1,200`, fraction-only `$99.50`, and `$1,200.50` — are each
captured whole inside a larger span, the last one even when followed by a
comma. -/
theorem c8_single_group_amount_matched_whole_witness :
    (findDollarAmounts "Cost $500 total").head? = some "500" ∧
    (findDollarAmounts "Cost $1,200 for flights").head? = some "1,200" ∧
    (findDollarAmounts "Fee $99.50 applies").head? = some "99.50" ∧
    (findDollarAmounts "Cost $1,200.50, then more").head? = some "1,200.50" :=
  ⟨c8_single_group_amount_matched_whole "Cost ".data "500".data none none " total".data
      (by decide) (by decide) (by exact trivial) (by exact trivial) (by decide),
   c8_single_group_amount_matched_whole "Cost ".data "1".data (some "200".data) none
      " for flights".data (by decide) (by decide) (by exact ⟨by decide, by decide⟩)
      (by exact trivial) (by decide),
   c8_single_group_amount_matched_whole "Fee ".data "99".data none (some "50".data)
      " applies".data (by decide) (by decide) (by exact trivial)
      (by exact ⟨by decide, by decide⟩) (by decide),
   c8_single_group_amount_matched_whole "Cost ".data "1".data (some "200".data)
      (some "50".data) ", then more".data (by decide) (by decide)
      (by exact ⟨by decide, by decide⟩) (by exact ⟨by decide, by decide⟩) (by decide)⟩

/-- C9: markup stripping is idempotent — `remove_asterisks` (which is
`text.replace("**", "")`) applied to an already-stripped string returns it
unchanged, because the replacement output never contains two consecutive
asterisks. -/
theorem c9_remove_asterisks_idempotent (s : String) :
    remove_asterisks (remove_asterisks s) = remove_asterisks s := by
  have key : ∀ l : List Char,
      pyReplaceAux ['*', '*'] [] (pyReplaceAux ['*', '*'] [] l.length l).length
          (pyReplaceAux ['*', '*'] [] l.length l)
        = pyReplaceAux ['*', '*'] [] l.length l :=
    fun l => remAst_id_of_noDoubleStar _ _ le_rfl (remAst_noDoubleStar _ _ le_rfl)
  exact congrArg String.mk (key s.data)

/-- C10: the output order of `extract_destinations` follows the fixed phrase
list order — if `d1` is captured by one of the first `n` travel phrases while
`d2` is captured only by later phrases (regardless of where the two phrases
occur in the input text), then `d1` precedes `d2` in the returned list, and
deduplication keeps the first occurrence in that iteration order. -/
theorem c10_phrase_order (text d1 d2 : String) (n : ℕ)
    (h1 : d1 ∈ ((travel_verbs.take n).map (fun v => verbCaptures v text)).flatten)
    (h2 : d2 ∈ ((travel_verbs.drop n).map (fun v => verbCaptures v text)).flatten)
    (h2' : d2 ∉ ((travel_verbs.take n).map (fun v => verbCaptures v text)).flatten) :
    ∃ k1 k2 : ℕ, k1 < k2 ∧
      (extract_destinations text)[k1]? = some d1 ∧
      (extract_destinations text)[k2]? = some d2 := by
  have hsplit : (travel_verbs.map (fun v => verbCaptures v text)).flatten
      = ((travel_verbs.take n).map (fun v => verbCaptures v text)).flatten
        ++ ((travel_verbs.drop n).map (fun v => verbCaptures v text)).flatten := by
    conv_lhs => rw [← List.take_append_drop n travel_verbs]
    rw [List.map_append, List.flatten_append]
  set xs := ((travel_verbs.take n).map (fun v => verbCaptures v text)).flatten with hxs
  set ys := ((travel_verbs.drop n).map (fun v => verbCaptures v text)).flatten with hys
  have hne2 : (xs ++ ys).isEmpty = false := by
    cases hx : xs with
    | nil => exact absurd hx (List.ne_nil_of_mem h1)
    | cons x xt => rfl
  have hdest : extract_destinations text = dedup_first (xs ++ ys) := by
    unfold extract_destinations
    simp only [hsplit, hne2, Bool.false_eq_true, if_false]
  rw [hdest]
  unfold dedup_first
  rw [List.foldl_append]
  have hd1 : d1 ∈ List.foldl (fun acc dest => if dest ∈ acc then acc else acc ++ [dest]) [] xs :=
    (dedup_fold_mem xs [] d1).mpr (Or.inr h1)
  have hd2 : d2 ∉ List.foldl (fun acc dest => if dest ∈ acc then acc else acc ++ [dest]) [] xs := by
    intro hmem
    rcases (dedup_fold_mem xs [] d2).mp hmem with h | h
    · cases h
    · exact h2' h
  set acc1 := List.foldl (fun acc dest => if dest ∈ acc then acc else acc ++ [dest]) [] xs with hacc1
  obtain ⟨t, ht⟩ := dedup_fold_prefix ys acc1
  have hd2fin : d2 ∈ List.foldl (fun acc dest => if dest ∈ acc then acc else acc ++ [dest]) acc1 ys :=
    (dedup_fold_mem ys acc1 d2).mpr (Or.inr h2)
  rw [ht] at hd2fin ⊢
  have hd2t : d2 ∈ t := by
    rcases List.mem_append.mp hd2fin with h | h
    · exact absurd h hd2
    · exact h
  obtain ⟨u, v, huv⟩ := List.append_of_mem hd1
  obtain ⟨u2, v2, huv2⟩ := List.append_of_mem hd2t
  refine ⟨u.length, acc1.length + u2.length, ?_, ?_, ?_⟩
  · have hlen : acc1.length = u.length + v.length + 1 := by
      rw [huv]
      simp [List.length_append]
      omega
    omega
  · rw [huv, List.append_assoc, List.cons_append]
    exact getElem?_append_mid u (v ++ t) d1
  · rw [huv2, ← List.append_assoc, ← List.length_append]
    exact getElem?_append_mid (acc1 ++ u2) v2 d2

/-- C10 witness: in "trip to Rome. visit Paris. go to Paris." the phrase
"trip to" (last in the list) captures "Rome" earliest in the text, yet
"Paris" — captured by the first-listed phrase "visit" — precedes "Rome" in
the output, and the duplicate "Paris" capture from "go to" is dropped in
favour of the first occurrence. -/
theorem c10_phrase_order_witness :
    ∃ k1 k2 : ℕ, k1 < k2 ∧
      (extract_destinations "trip to Rome. visit Paris. go to Paris.")[k1]? = some "Paris" ∧
      (extract_destinations "trip to Rome. visit Paris. go to Paris.")[k2]? = some "Rome" :=
  c10_phrase_order "trip to Rome. visit Paris. go to Paris." "Paris" "Rome" 1
    (by decide) (by decide) (by decide)
